import Mathlib

/-!
Verification of the stdio transport of `mcp-cli`
(`src/mcpcli/transport/stdio/stdio_client.py`).

Text is modelled as `List Char` (Python `str` chunks delivered by
`TextReceiveStream`).  The reader loop's line reassembly
(`lines = (buffer + chunk).split("\n"); buffer = lines.pop()`) is modelled by
`splitNl`, a faithful rendering of Python's `str.split("\n")`.
-/

/-- Python's `s.split("\n")`: splits on every newline, keeping empty pieces;
the result is always non-empty (`"".split("\n") == [""]`). -/
def splitNl : List Char → List (List Char)
  | [] => [[]]
  | c :: cs =>
    if c = '\n' then [] :: splitNl cs
    else (c :: (splitNl cs).headD []) :: (splitNl cs).tail

/-- Last element of a list of lines, `[]` for the empty list (models
`lines.pop()` / the last piece of a Python `split`). -/
def lastD : List (List Char) → List Char
  | [] => []
  | [l] => l
  | _ :: l :: ls => lastD (l :: ls)

/-- Python ASCII whitespace, the characters stripped by `str.strip()`
(restricted to the ASCII range; the transport's payload is JSON text). -/
def pySpace (c : Char) : Bool :=
  c = ' ' || c = '\t' || c = '\n' || c = '\r' || c = '\x0b' || c = '\x0c'

/-- Truthiness test of `line.strip()`: true when the line is blank. -/
def isBlank (l : List Char) : Bool := l.all pySpace

def nonBlank (l : List Char) : Bool := !(isBlank l)

/-- Concatenation of all text chunks delivered by the stdout stream. -/
def joinAll : List (List Char) → List Char
  | [] => []
  | c :: cs => c ++ joinAll cs

/-- The sequence of lines the reader loop hands to `process_json_line`:
per chunk, `lines = (buffer + chunk).split("\n"); buffer = lines.pop()`,
each retained non-blank complete line is processed; at end of stream a
non-blank buffer is processed once (`if buffer.strip(): ...`). -/
def readerLines : List (List Char) → List Char → List (List Char)
  | [], buffer => if isBlank buffer then [] else [buffer]
  | chunk :: rest, buffer =>
    (splitNl (buffer ++ chunk)).dropLast.filter nonBlank ++
      readerLines rest (lastD (splitNl (buffer ++ chunk)))

/-- The partial-line buffer held by the reader loop after consuming the given
chunks, starting from the given buffer. -/
def readerBuffer : List (List Char) → List Char → List Char
  | [], buffer => buffer
  | chunk :: rest, buffer =>
    readerBuffer rest (lastD (splitNl (buffer ++ chunk)))

/-- Chunking-independent description of the processed lines: the non-blank
complete lines of the whole stream, followed by the final flush of a
non-blank trailing fragment. -/
def emitted (s : List Char) : List (List Char) :=
  (splitNl s).dropLast.filter nonBlank ++
    (if isBlank (lastD (splitNl s)) then [] else [lastD (splitNl s)])

/-- The trailing fragment of a stream after its last newline (the whole
stream when it has no newline). -/
def trailingFragment (s : List Char) : List Char :=
  (s.reverse.takeWhile (fun c => c != '\n')).reverse

/-!
## Per-line processing and the reader loop run

`process_json_line` decodes a line (`json.loads` +
`JSONRPCMessage.model_validate`, modelled as an opaque `decode` function,
`none` meaning the decode or validation raised) and forwards the result with
`await writer.send(message)` on the inbound memory-object stream.  Its body
is wrapped in `try/except json.JSONDecodeError/except Exception`, so every
raised exception that is a subclass of `Exception` is logged and swallowed.
-/

/-- Python exceptions relevant to the loop body.  All of these derive from
`Exception`; `cancelled` stands for `CancelledError`, which derives from
`BaseException` only and is not caught by an `except Exception` clause. -/
inductive PyExc
  | jsonDecodeError
  | validationError
  | channelClosed
  | cancelled
deriving DecidableEq, Repr

/-- Would `except Exception` catch this exception? -/
def caughtByExceptException : PyExc → Bool
  | .cancelled => false
  | _ => true

/-- Model of `await writer.send(m)` on the inbound memory-object stream: succeeds when
the channel is open, raises `ClosedResourceError`/`BrokenResourceError`
(modelled as `channelClosed`) when the channel has been closed. -/
def channelSend (chOpen : Bool) (m : α) : Except PyExc α :=
  if chOpen then .ok m else .error .channelClosed

/-- The body of `process_json_line` before its `except` clauses:
decode the line, then send the validated message. `decode line = none` models
`json.loads`/`model_validate` raising. -/
def process_json_line_body (decode : List Char → Option α) (chOpen : Bool)
    (line : List Char) : Except PyExc (Option α) :=
  match decode line with
  | Option.none => .error .jsonDecodeError
  | some m =>
    match channelSend chOpen m with
    | .ok m => .ok (some m)
    | .error e => .error e

/-- Function `process_json_line` with its `except` clauses: every exception deriving
from `Exception` is logged (second component `true`) and swallowed; the
function returns normally with no message forwarded.  Only a
`BaseException`-level exception would escape. -/
def process_json_line (decode : List Char → Option α) (chOpen : Bool)
    (line : List Char) : Except PyExc (Option α × Bool) :=
  match process_json_line_body decode chOpen line with
  | .ok r => .ok (r, false)
  | .error e =>
    if caughtByExceptException e then .ok (Option.none, true) else .error e

/-- Observable outcome of a reader-loop run: messages forwarded to the
inbound channel, number of `process_json_line` invocations, and the
exception (if any) that escaped into `stdout_reader`'s own handlers. -/
structure RunResult (α : Type) where
  msgs : List α
  processed : Nat
  exc : Option PyExc
deriving DecidableEq, Repr

/-- Run `process_json_line` over a list of lines, aborting if an exception
escapes (it would propagate out of the `for line in lines` loop). -/
def run_lines (decode : List Char → Option α) (chOpen : Bool) :
    List (List Char) → RunResult α
  | [] => ⟨[], 0, Option.none⟩
  | l :: ls =>
    match process_json_line decode chOpen l with
    | .error e => ⟨[], 1, some e⟩
    | .ok (m, _) =>
      let r := run_lines decode chOpen ls
      ⟨m.toList ++ r.msgs, r.processed + 1, r.exc⟩

/-- The `stdout_reader` loop: for each chunk, reassemble lines with the
carried buffer and process each retained non-blank line; at end of stream,
process the final buffer once if it is non-blank. -/
def stdout_reader (decode : List Char → Option α) (chOpen : Bool) :
    List (List Char) → List Char → RunResult α
  | [], buffer =>
    if isBlank buffer then ⟨[], 0, Option.none⟩
    else run_lines decode chOpen [buffer]
  | chunk :: rest, buffer =>
    let r1 := run_lines decode chOpen
      ((splitNl (buffer ++ chunk)).dropLast.filter nonBlank)
    match r1.exc with
    | some _ => r1
    | Option.none =>
      let r2 := stdout_reader decode chOpen rest (lastD (splitNl (buffer ++ chunk)))
      ⟨r1.msgs ++ r2.msgs, r1.processed + r2.processed, r2.exc⟩

/-!
## Message codec

`stdin_writer` encodes with `message.model_dump_json(exclude_none=True)` and
appends `"\n"`; `process_json_line` decodes with `json.loads` followed by
`JSONRPCMessage.model_validate`.
-/

/-- A JSON value (the textual serialization/parsing is performed by Python's
`json` library, an external collaborator; the codec is modelled at the
JSON-value level). -/
inductive Json
  | null
  | bool (b : Bool)
  | num (n : Int)
  | str (s : String)
  | arr (elems : List Json)
  | obj (fields : List (String × Json))

/-- Modelled from the spec: the `JSONRPCMessage` pydantic model
(`mcpcli.messages.message_types.json_rpc_message`) is code of this repository
that is not under `src/`.  Per the spec it is "a structured JSON-RPC-shaped
value with recognized fields (method/params for requests and notifications;
result/error for responses; an id correlating request and response)", with
optional fields that are omitted when null. -/
structure JSONRPCMessage where
  jsonrpc : String
  id : Option Json
  method : Option String
  params : Option Json
  result : Option Json
  error : Option Json

/-- One field of the serialized object, omitted when the value is null
(`exclude_none=True`). -/
def optField (name : String) : Option Json → List (String × Json)
  | Option.none => []
  | some v => [(name, v)]

/-- Modelled from the spec: `model_dump_json(exclude_none=True)` at the
JSON-value level — the serialized object holds exactly the populated
fields. -/
def model_dump (m : JSONRPCMessage) : List (String × Json) :=
  [("jsonrpc", Json.str m.jsonrpc)]
    ++ optField "id" m.id
    ++ optField "method" (m.method.map Json.str)
    ++ optField "params" m.params
    ++ optField "result" m.result
    ++ optField "error" m.error

/-- Reads an optional string-typed field: absent is fine, a present
non-string value fails validation. -/
def getOptStr : Option Json → Option (Option String)
  | Option.none => some Option.none
  | some (Json.str s) => some (some s)
  | some _ => Option.none

/-- Modelled from the spec: `JSONRPCMessage.model_validate` — the decoded
value must be an object of the minimal expected shape (`jsonrpc` a string,
defaulting to "2.0" when absent; `method` a string when present); it returns
`none` where pydantic would raise a validation error. -/
def model_validate : Json → Option JSONRPCMessage
  | Json.obj fields =>
    match getOptStr (List.lookup "jsonrpc" fields) with
    | Option.none => Option.none
    | some v =>
      match getOptStr (List.lookup "method" fields) with
      | Option.none => Option.none
      | some me =>
        some ⟨v.getD "2.0", List.lookup "id" fields, me,
          List.lookup "params" fields, List.lookup "result" fields,
          List.lookup "error" fields⟩
  | _ => Option.none

/-!
## Session opening (`stdio_client`) and process termination
-/

/-- The runtime type of the `args` attribute, as far as
`isinstance(server.args, (list, tuple))` can distinguish it. -/
inductive PyArgs
  | list (xs : List String)
  | tuple (xs : List String)
  | pyStr (s : String)
  | pyNone
deriving DecidableEq, Repr

def PyArgs.isListOrTuple : PyArgs → Bool
  | .list _ => true
  | .tuple _ => true
  | _ => false

def PyArgs.elems : PyArgs → List String
  | .list xs => xs
  | .tuple xs => xs
  | _ => []

/-- Modelled from the spec: `StdioServerParameters` (its module is not under
`src/`) — "`command` (executable name/path, required), `args` (ordered
sequence of strings), `env` (optional mapping of additional/overriding
environment variables)". -/
structure StdioServerParameters where
  command : String
  args : PyArgs
  env : Option (List (String × String))

/-- Insert one key/value pair into a Python dict (update the existing key or
append a new one). -/
def dictInsert (d : List (String × String)) (kv : String × String) :
    List (String × String) :=
  if d.any (fun p => p.1 = kv.1) then
    d.map (fun p => if p.1 = kv.1 then (p.1, kv.2) else p)
  else d ++ [kv]

/-- Python dict merge `{**a, **b}`: the entries of `b` override those of `a`. -/
def dictMerge (a b : List (String × String)) : List (String × String) :=
  b.foldl dictInsert a

/-- The environment passed to `anyio.open_process`:
`{**get_default_environment(), **(server.env or {})}`.
`get_default_environment` is code of this repository not under `src/`; per
the spec it supplies "a platform default environment", so it is taken as an
arbitrary mapping `dflt`. -/
def spawnEnv (dflt : List (String × String)) (server : StdioServerParameters) :
    List (String × String) :=
  dictMerge dflt (server.env.getD [])

/-- Resource-acquiring effects of `stdio_client`, in program order. -/
inductive OpenEffect
  | createChannels
  | spawnProcess (argv : List String) (env : List (String × String))
deriving DecidableEq, Repr

def OpenEffect.isSpawn : OpenEffect → Bool
  | .spawnProcess _ _ => true
  | _ => false

/-- Outcome of entering `stdio_client`: the resource-acquiring effects
performed, and the `ValueError` message if one was raised. -/
structure OpenResult where
  effects : List OpenEffect
  raisedValueError : Option String
deriving DecidableEq, Repr

/-- The opening sequence of `stdio_client`: validate `command`, validate
`args`, create the two memory-object channel pairs, then spawn the child
with `[server.command, *server.args]` and the merged environment. -/
def stdio_client (dflt : List (String × String))
    (server : StdioServerParameters) : OpenResult :=
  if server.command = "" then
    ⟨[], some "Server command must not be empty."⟩
  else if !server.args.isListOrTuple then
    ⟨[], some "Server arguments must be a list or tuple."⟩
  else
    ⟨[OpenEffect.createChannels,
      OpenEffect.spawnProcess (server.command :: server.args.elems)
        (spawnEnv dflt server)], Option.none⟩

/-- State of the child process at the time `terminate_process` runs:
`returncode` is `some _` when the process has already exited;
`exitTimeAfterTerminate` is the delay until exit after a graceful terminate
(`none` when the process ignores it); the two flags model `terminate()` and
`kill()` raising. -/
structure ProcState where
  returncode : Option Int
  exitTimeAfterTerminate : Option Nat
  terminateRaises : Bool
  killRaises : Bool
deriving DecidableEq, Repr

inductive TermAction
  | terminate
  | waitGraceful
  | kill
deriving DecidableEq, Repr

/-- Observable outcome of `terminate_process`: process-control actions in
order, whether an exception propagated to the caller, and how many errors
were caught and logged. -/
structure TermOutcome where
  actions : List TermAction
  raisedToCaller : Bool
  errorsLogged : Nat
deriving DecidableEq, Repr

/-- Function `terminate_process`: no-op if `process.returncode is not None`; otherwise
`process.terminate()` then `anyio.fail_after(5): await process.wait()`;
on `TimeoutError`, `process.kill()` with its own error swallowed; every other
exception is swallowed by the outer handler. -/
def terminate_process (p : ProcState) : TermOutcome :=
  match p.returncode with
  | some _ => ⟨[], false, 0⟩
  | Option.none =>
    if p.terminateRaises then ⟨[.terminate], false, 1⟩
    else
      match p.exitTimeAfterTerminate with
      | some t =>
        if t ≤ 5 then ⟨[.terminate, .waitGraceful], false, 0⟩
        else ⟨[.terminate, .waitGraceful, .kill], false,
          if p.killRaises then 1 else 0⟩
      | Option.none =>
        ⟨[.terminate, .waitGraceful, .kill], false,
          if p.killRaises then 1 else 0⟩

/-- A sample decoder for concrete runs: maps designated single-letter lines
to numbers, anything else fails to decode. -/
def decodeNat (l : List Char) : Option Nat :=
  if l = ['a'] then some 1
  else if l = ['b'] then some 2
  else if l = ['c'] then some 3
  else Option.none

/-- Formalization of claim C1: with the inbound channel closed, as soon as a
line decodes successfully the loop stops silently — it forwards no further
messages, processes nothing beyond that line, and raises nothing. -/
def readerStopsOnClosedChannelClaim : Prop :=
  ∀ (decode : List Char → Option Nat) (chunks : List (List Char)) (i : Nat),
    i < (readerLines chunks []).length →
    (decode ((readerLines chunks []).getD i [])).isSome = true →
    (stdout_reader decode false chunks []).processed ≤ i + 1 ∧
    (stdout_reader decode false chunks []).msgs = [] ∧
    (stdout_reader decode false chunks []).exc = Option.none

theorem splitNl_ne_nil (s : List Char) : splitNl s ≠ [] := by
  cases s with
  | nil => simp [splitNl]
  | cons c cs =>
    simp only [splitNl]
    split <;> simp

theorem cons_headD_tail {α : Type} (d : α) (l : List α) (h : l ≠ []) :
    l.headD d :: l.tail = l := by
  cases l with
  | nil => exact absurd rfl h
  | cons a t => rfl

@[simp] theorem lastD_nil : lastD [] = [] := rfl

@[simp] theorem lastD_singleton (l : List Char) : lastD [l] = l := rfl

theorem lastD_cons_of_ne_nil (x : List Char) {t : List (List Char)} (h : t ≠ []) :
    lastD (x :: t) = lastD t := by
  cases t with
  | nil => exact absurd rfl h
  | cons y ys => rfl

theorem lastD_append_of_ne_nil (s : List (List Char)) {t : List (List Char)}
    (h : t ≠ []) : lastD (s ++ t) = lastD t := by
  induction s with
  | nil => rfl
  | cons x xs ih =>
    rw [List.cons_append, lastD_cons_of_ne_nil x (by simp [h]), ih]

theorem lastD_mem {l : List (List Char)} (h : l ≠ []) : lastD l ∈ l := by
  induction l with
  | nil => exact absurd rfl h
  | cons x xs ih =>
    cases xs with
    | nil => simp
    | cons y ys =>
      rw [lastD_cons_of_ne_nil x (by simp)]
      exact List.mem_cons_of_mem _ (ih (by simp))

theorem splitNl_cons_nl (cs : List Char) :
    splitNl ('\n' :: cs) = [] :: splitNl cs := by
  simp [splitNl]

theorem splitNl_cons_ne {c : Char} (hc : c ≠ '\n') (cs : List Char) :
    splitNl (c :: cs) = (c :: (splitNl cs).headD []) :: (splitNl cs).tail := by
  simp [splitNl, hc]

theorem splitNl_of_no_newline {s : List Char} (h : '\n' ∉ s) :
    splitNl s = [s] := by
  induction s with
  | nil => rfl
  | cons c cs ih =>
    have hc : c ≠ '\n' := fun hc => h (hc ▸ List.mem_cons_self c cs)
    have hcs : '\n' ∉ cs := fun hm => h (List.mem_cons_of_mem c hm)
    rw [splitNl_cons_ne hc, ih hcs]
    rfl

theorem no_newline_of_mem_splitNl {s : List Char} {l : List Char}
    (h : l ∈ splitNl s) : '\n' ∉ l := by
  induction s generalizing l with
  | nil =>
    simp [splitNl] at h
    simp [h]
  | cons c cs ih =>
    by_cases hc : c = '\n'
    · simp [splitNl, hc] at h
      rcases h with h | h
      · simp [h]
      · exact ih h
    · simp only [splitNl, if_neg hc] at h
      rcases List.mem_cons.mp h with h | h
      · subst h
        intro hmem
        rcases List.mem_cons.mp hmem with h1 | h1
        · exact hc h1.symm
        · have hhd : (splitNl cs).headD [] ∈ splitNl cs := by
            have hne := splitNl_ne_nil cs
            cases hsp : splitNl cs with
            | nil => exact absurd hsp hne
            | cons a t => simp
          exact ih hhd h1
      · exact ih (List.mem_of_mem_tail h)

theorem splitNl_append (a b : List Char) :
    splitNl (a ++ b) =
      (splitNl a).dropLast ++
        (lastD (splitNl a) ++ (splitNl b).headD []) :: (splitNl b).tail := by
  induction a with
  | nil =>
    simp only [List.nil_append, splitNl, List.dropLast_single, lastD_singleton]
    exact (cons_headD_tail [] (splitNl b) (splitNl_ne_nil b)).symm
  | cons c a ih =>
    by_cases hc : c = '\n'
    · subst hc
      rw [List.cons_append, splitNl_cons_nl, splitNl_cons_nl, ih,
        List.dropLast_cons_of_ne_nil (splitNl_ne_nil a),
        lastD_cons_of_ne_nil [] (splitNl_ne_nil a), List.cons_append]
    · have hne := splitNl_ne_nil a
      cases hsp : splitNl a with
      | nil => exact absurd hsp hne
      | cons x t =>
        cases t with
        | nil =>
          rw [List.cons_append, splitNl_cons_ne hc, splitNl_cons_ne hc, ih, hsp]
          simp
        | cons y ys =>
          rw [List.cons_append, splitNl_cons_ne hc, splitNl_cons_ne hc, ih, hsp]
          simp [List.dropLast_cons_of_ne_nil, lastD_cons_of_ne_nil]

/-- Splitting a stream that starts with a complete newline-terminated line
peels that line off. -/
theorem splitNl_line_cons {l : List Char} (h : '\n' ∉ l) (r : List Char) :
    splitNl (l ++ '\n' :: r) = l :: splitNl r := by
  rw [splitNl_append l ('\n' :: r), splitNl_of_no_newline h, splitNl_cons_nl]
  simp [cons_headD_tail [] (splitNl r) (splitNl_ne_nil r)]

@[simp] theorem joinAll_nil : joinAll [] = [] := rfl

@[simp] theorem joinAll_cons (c : List Char) (cs : List (List Char)) :
    joinAll (c :: cs) = c ++ joinAll cs := rfl

theorem no_newline_lastD_splitNl (s : List Char) : '\n' ∉ lastD (splitNl s) :=
  no_newline_of_mem_splitNl (lastD_mem (splitNl_ne_nil s))

theorem splitNl_no_newline_append {p : List Char} (hp : '\n' ∉ p)
    (b : List Char) :
    splitNl (p ++ b) =
      (p ++ (splitNl b).headD []) :: (splitNl b).tail := by
  rw [splitNl_append p b, splitNl_of_no_newline hp]
  simp

theorem lastD_splitNl_append (a b : List Char) :
    lastD (splitNl (a ++ b)) =
      lastD ((lastD (splitNl a) ++ (splitNl b).headD []) :: (splitNl b).tail) := by
  rw [splitNl_append a b]
  exact lastD_append_of_ne_nil _ (by simp)

theorem lastD_splitNl_buffer_absorb (a b : List Char) :
    lastD (splitNl (lastD (splitNl a) ++ b)) = lastD (splitNl (a ++ b)) := by
  rw [splitNl_no_newline_append (no_newline_lastD_splitNl a) b,
    lastD_splitNl_append a b]

theorem readerBuffer_eq {buffer : List Char} (hb : '\n' ∉ buffer)
    (chunks : List (List Char)) :
    readerBuffer chunks buffer = lastD (splitNl (buffer ++ joinAll chunks)) := by
  induction chunks generalizing buffer with
  | nil =>
    rw [readerBuffer, joinAll_nil, List.append_nil, splitNl_of_no_newline hb,
      lastD_singleton]
  | cons chunk rest ih =>
    rw [readerBuffer, ih (no_newline_lastD_splitNl (buffer ++ chunk)),
      joinAll_cons, lastD_splitNl_buffer_absorb (buffer ++ chunk) (joinAll rest),
      List.append_assoc]

theorem dropLast_splitNl_buffer_absorb (a b : List Char) :
    (splitNl (a ++ b)).dropLast =
      (splitNl a).dropLast ++ (splitNl (lastD (splitNl a) ++ b)).dropLast := by
  rw [splitNl_append a b,
    splitNl_no_newline_append (no_newline_lastD_splitNl a) b,
    List.dropLast_append_cons]

theorem readerLines_eq {buffer : List Char} (hb : '\n' ∉ buffer)
    (chunks : List (List Char)) :
    readerLines chunks buffer = emitted (buffer ++ joinAll chunks) := by
  induction chunks generalizing buffer with
  | nil =>
    rw [readerLines, joinAll_nil, List.append_nil, emitted,
      splitNl_of_no_newline hb]
    simp [List.dropLast_single]
  | cons chunk rest ih =>
    rw [readerLines, ih (no_newline_lastD_splitNl (buffer ++ chunk)),
      joinAll_cons, ← List.append_assoc, emitted, emitted,
      lastD_splitNl_buffer_absorb (buffer ++ chunk) (joinAll rest),
      dropLast_splitNl_buffer_absorb (buffer ++ chunk) (joinAll rest),
      List.filter_append]
    simp [List.append_assoc]

theorem lastD_splitNl_concat (s : List Char) (c : Char) :
    lastD (splitNl (s ++ [c])) =
      if c = '\n' then [] else lastD (splitNl s) ++ [c] := by
  by_cases hc : c = '\n'
  · subst hc
    rw [splitNl_append s ['\n'], show splitNl ['\n'] = [[], []] from rfl,
      lastD_append_of_ne_nil _ (by simp), if_pos rfl]
    rfl
  · have h1 : '\n' ∉ [c] := by
      intro hm
      rcases List.mem_singleton.mp hm with h
      exact hc h.symm
    rw [splitNl_append s [c], splitNl_of_no_newline h1,
      lastD_append_of_ne_nil _ (by simp), if_neg hc]
    rfl

theorem trailingFragment_concat (s : List Char) (c : Char) :
    trailingFragment (s ++ [c]) =
      if c = '\n' then [] else trailingFragment s ++ [c] := by
  by_cases hc : c = '\n'
  · subst hc
    simp [trailingFragment]
  · simp [trailingFragment, List.takeWhile_cons, hc]

theorem lastD_splitNl_eq_trailingFragment (s : List Char) :
    lastD (splitNl s) = trailingFragment s := by
  induction s using List.reverseRecOn with
  | nil => rfl
  | append_singleton s c ih =>
    rw [lastD_splitNl_concat, trailingFragment_concat, ih]

/-- Theorem: `process_json_line` never lets an exception escape — decode errors and
send-on-closed-channel errors are all `Exception`s and are swallowed by its
generic handler. -/
theorem process_json_line_total (decode : List Char → Option α) (chOpen : Bool)
    (line : List Char) :
    process_json_line decode chOpen line =
      .ok (if chOpen then decode line else Option.none,
           (if chOpen then decode line else Option.none).isNone) := by
  cases hdec : decode line with
  | none =>
    simp [process_json_line, process_json_line_body, hdec,
      caughtByExceptException]
  | some m =>
    cases chOpen <;>
      simp [process_json_line, process_json_line_body, hdec, channelSend,
        caughtByExceptException]

/-- Closed form of a reader-loop run over a line list: every line is
processed (the loop never stops early), messages are the successful decodes
when the channel is open and nothing otherwise, and no exception escapes. -/
theorem run_lines_eq (decode : List Char → Option α) (chOpen : Bool)
    (ls : List (List Char)) :
    run_lines decode chOpen ls =
      ⟨if chOpen then ls.filterMap decode else [], ls.length, Option.none⟩ := by
  induction ls with
  | nil => cases chOpen <;> rfl
  | cons l ls ih =>
    rw [run_lines, process_json_line_total, ih]
    cases chOpen
    · simp
    · cases hdec : decode l <;> simp [hdec]

/-- The chunked reader-loop run equals the run over its reassembled line
sequence. -/
theorem stdout_reader_eq (decode : List Char → Option α) (chOpen : Bool)
    (chunks : List (List Char)) (buffer : List Char) :
    stdout_reader decode chOpen chunks buffer =
      run_lines decode chOpen (readerLines chunks buffer) := by
  induction chunks generalizing buffer with
  | nil =>
    rw [stdout_reader, readerLines]
    by_cases hb : isBlank buffer
    · simp [hb, run_lines_eq]
    · simp [hb]
  | cons chunk rest ih =>
    rw [stdout_reader, readerLines, ih, run_lines_eq, run_lines_eq, run_lines_eq]
    cases chOpen <;> simp

theorem lookup_append_dict (d e : List (String × String)) (k : String) :
    List.lookup k (d ++ e) =
      ((List.lookup k d).orElse (fun _ => List.lookup k e)) := by
  induction d with
  | nil => simp
  | cons p d ih =>
    obtain ⟨a, b⟩ := p
    by_cases hk : k = a
    · have hb : (k == a) = true := beq_iff_eq.mpr hk
      simp [List.lookup_cons, hb, Option.orElse]
    · have hb : (k == a) = false := beq_eq_false_iff_ne.mpr hk
      simp [List.lookup_cons, hb, ih]

theorem lookup_eq_none_of_not_key {d : List (String × String)} {k : String}
    (h : ∀ p ∈ d, p.1 ≠ k) : List.lookup k d = Option.none := by
  induction d with
  | nil => simp
  | cons p d ih =>
    obtain ⟨a, b⟩ := p
    have ha : a ≠ k := h (a, b) (List.mem_cons_self _ _)
    have hb : (k == a) = false := beq_eq_false_iff_ne.mpr (fun hk => ha hk.symm)
    rw [List.lookup_cons, hb]
    exact ih (fun q hq => h q (List.mem_cons_of_mem _ hq))

theorem lookup_map_update (d : List (String × String)) (k k' v : String) :
    List.lookup k (d.map (fun p => if p.1 = k' then (p.1, v) else p)) =
      if k = k' then
        (if d.any (fun p => p.1 = k') then some v else Option.none)
      else List.lookup k d := by
  induction d with
  | nil => simp
  | cons p d ih =>
    obtain ⟨a, b⟩ := p
    by_cases hak : a = k'
    · by_cases hk : k = a
      · have hkk : k = k' := hk.trans hak
        have hb : (k == a) = true := beq_iff_eq.mpr hk
        simp [List.lookup_cons, if_pos hak, hb, hkk, hak]
      · have hkk : ¬ k = k' := fun h => hk (h.trans hak.symm)
        have hb : (k == a) = false := beq_eq_false_iff_ne.mpr hk
        simp [List.lookup_cons, if_pos hak, hb, ih, hkk]
    · by_cases hk : k = a
      · have hkk : ¬ k = k' := fun h => hak (hk.symm.trans h)
        have hb : (k == a) = true := beq_iff_eq.mpr hk
        simp [List.lookup_cons, if_neg hak, hb, hkk]
      · have hb : (k == a) = false := beq_eq_false_iff_ne.mpr hk
        by_cases hkk : k = k'
        · subst hkk
          have hd : (decide (a = k)) = false := by
            simpa using hak
          simp [List.lookup_cons, if_neg hak, hb, ih]
          rw [hd, Bool.false_or]
        · simp [List.lookup_cons, if_neg hak, hb, ih, hkk]

theorem lookup_dictInsert (d : List (String × String)) (k k' v : String) :
    List.lookup k (dictInsert d (k', v)) =
      if k = k' then some v else List.lookup k d := by
  unfold dictInsert
  by_cases hany : d.any (fun p => p.1 = k') = true
  · rw [if_pos hany, lookup_map_update]
    by_cases hk : k = k'
    · simp [hk, hany]
    · simp [hk]
  · rw [if_neg hany, lookup_append_dict]
    have hnone : List.lookup k' d = Option.none := by
      refine lookup_eq_none_of_not_key (fun p hp => ?_)
      intro hpk
      exact hany (List.any_eq_true.mpr ⟨p, hp, by simp [hpk]⟩)
    by_cases hk : k = k'
    · subst hk
      simp [hnone, List.lookup_cons, Option.orElse]
    · have hb : (k == k') = false := beq_eq_false_iff_ne.mpr hk
      simp [List.lookup_cons, hb, if_neg hk, Option.orElse]
      cases List.lookup k d <;> rfl

theorem lookup_dictMerge (a env : List (String × String)) (k : String)
    (hnd : (env.map Prod.fst).Nodup) :
    List.lookup k (dictMerge a env) =
      ((List.lookup k env).orElse (fun _ => List.lookup k a)) := by
  induction env generalizing a with
  | nil => simp [dictMerge, Option.orElse]
  | cons e es ih =>
    obtain ⟨k', v⟩ := e
    have hnd' : (es.map Prod.fst).Nodup := (List.nodup_cons.mp hnd).2
    have hnotin : k' ∉ es.map Prod.fst := (List.nodup_cons.mp hnd).1
    have hstep : dictMerge a ((k', v) :: es) = dictMerge (dictInsert a (k', v)) es := by
      simp [dictMerge]
    rw [hstep, ih _ hnd', lookup_dictInsert]
    by_cases hk : k = k'
    · subst hk
      have hes : List.lookup k es = Option.none := by
        refine lookup_eq_none_of_not_key (fun p hp => ?_)
        intro hpk
        exact hnotin (hpk ▸ List.mem_map_of_mem Prod.fst hp)
      have hb : (k == k) = true := beq_iff_eq.mpr rfl
      simp [hes, List.lookup_cons, hb, Option.orElse]
    · have hb : (k == k') = false := beq_eq_false_iff_ne.mpr hk
      simp [List.lookup_cons, hb, if_neg hk]

/-- C1, counterexample: two decodable lines arrive while the inbound channel
is closed; the claim requires the loop to stop after the first, but the code
swallows the send error inside `process_json_line` and processes both
(`processed = 2`, not `≤ 1`). -/
theorem c1_closed_channel_counterexample : ¬ readerStopsOnClosedChannelClaim := by
  intro h
  have h2 := h decodeNat [['a', '\n', 'b', '\n']] 0 (by decide) (by decide)
  exact absurd h2.1 (by decide)

/-- C1 amended: when the inbound channel has already been closed, the
send failure on each decoded line is caught by `process_json_line`'s generic
handler and logged; the loop does not stop — it processes every remaining
line, forwards no message, and lets no error escape to the reader's own
handlers. -/
theorem c1_closed_channel_loop_continues {α : Type}
    (decode : List Char → Option α) (chunks : List (List Char)) :
    stdout_reader decode false chunks [] =
      ⟨[], (readerLines chunks []).length, Option.none⟩ := by
  rw [stdout_reader_eq, run_lines_eq]
  simp

/-- C2: the sequence of decoded messages (and the whole observable run) is
independent of how the stdout byte stream was chunked: any two chunkings of
the same underlying text produce identical reader-loop runs. -/
theorem c2_chunk_boundary_invariance {α : Type} (decode : List Char → Option α)
    (cs ds : List (List Char)) (h : joinAll cs = joinAll ds) :
    stdout_reader decode true cs [] = stdout_reader decode true ds [] := by
  rw [stdout_reader_eq, stdout_reader_eq,
    readerLines_eq (List.not_mem_nil '\n') cs,
    readerLines_eq (List.not_mem_nil '\n') ds,
    List.nil_append, List.nil_append, h]

theorem c2_witness :
    joinAll [['a', '\n', 'b', '\n']] = joinAll [['a'], ['\n', 'b'], ['\n']] ∧
    stdout_reader decodeNat true [['a', '\n', 'b', '\n']] [] =
      stdout_reader decodeNat true [['a'], ['\n', 'b'], ['\n']] [] :=
  ⟨by decide,
    c2_chunk_boundary_invariance decodeNat [['a', '\n', 'b', '\n']]
      [['a'], ['\n', 'b'], ['\n']] (by decide)⟩

/-- C4: a stream of one valid line, one malformed line, then another valid
line yields exactly the two valid messages in order; all three lines are
processed (the malformed one is logged and discarded, the loop does not
terminate) and no exception escapes. -/
theorem c4_malformed_line_resilience {α : Type} (decode : List Char → Option α)
    (l1 l2 l3 : List Char) (m1 m3 : α) (chunks : List (List Char))
    (h1 : '\n' ∉ l1) (h2 : '\n' ∉ l2) (h3 : '\n' ∉ l3)
    (b1 : nonBlank l1 = true) (b2 : nonBlank l2 = true)
    (b3 : nonBlank l3 = true)
    (hd1 : decode l1 = some m1) (hd2 : decode l2 = Option.none)
    (hd3 : decode l3 = some m3)
    (hj : joinAll chunks = l1 ++ '\n' :: (l2 ++ '\n' :: (l3 ++ ['\n']))) :
    stdout_reader decode true chunks [] = ⟨[m1, m3], 3, Option.none⟩ := by
  rw [stdout_reader_eq, readerLines_eq (List.not_mem_nil '\n') chunks,
    List.nil_append, hj, run_lines_eq, emitted,
    splitNl_line_cons h1, splitNl_line_cons h2, splitNl_line_cons h3]
  have hsp : splitNl ([] : List Char) = [[]] := rfl
  rw [hsp]
  have hlast : lastD [l1, l2, l3, []] = [] := by
    rw [lastD_cons_of_ne_nil _ (by simp), lastD_cons_of_ne_nil _ (by simp),
      lastD_cons_of_ne_nil _ (by simp), lastD_singleton]
  rw [hlast]
  have hblank : isBlank [] = true := rfl
  rw [if_pos hblank]
  have hdrop : ([l1, l2, l3, []] : List (List Char)).dropLast = [l1, l2, l3] := rfl
  rw [hdrop]
  simp [List.filter, b1, b2, b3, List.filterMap, hd1, hd2, hd3]

theorem c4_witness :
    decodeNat ['a'] = some 1 ∧ decodeNat ['x'] = Option.none ∧
    decodeNat ['c'] = some 3 ∧
    stdout_reader decodeNat true [['a', '\n', 'x', '\n', 'c', '\n']] [] =
      ⟨[1, 3], 3, Option.none⟩ :=
  ⟨by decide, by decide, by decide,
    c4_malformed_line_resilience decodeNat ['a'] ['x'] ['c'] 1 3
      [['a', '\n', 'x', '\n', 'c', '\n']]
      (by decide) (by decide) (by decide) (by decide) (by decide) (by decide)
      (by decide) (by decide) (by decide) (by decide)⟩

/-- C7: at end of stream, a non-blank trailing partial-line buffer is handed
to `process_json_line` exactly once, appended after all complete lines; a
blank (or empty) trailing buffer is not flushed. -/
theorem c7_final_partial_line_flush (chunks : List (List Char)) :
    (isBlank (readerBuffer chunks []) = false →
      readerLines chunks [] =
        (splitNl (joinAll chunks)).dropLast.filter nonBlank ++
          [readerBuffer chunks []]) ∧
    (isBlank (readerBuffer chunks []) = true →
      readerLines chunks [] =
        (splitNl (joinAll chunks)).dropLast.filter nonBlank) := by
  have hrb := readerBuffer_eq (List.not_mem_nil '\n') chunks
  have hrl := readerLines_eq (List.not_mem_nil '\n') chunks
  rw [List.nil_append] at hrb hrl
  constructor <;> intro h <;> rw [hrl, emitted, ← hrb] <;> simp [h]

theorem c7_witness :
    isBlank (readerBuffer [['a', '\n', 'b']] []) = false ∧
    readerLines [['a', '\n', 'b']] [] =
      (splitNl (joinAll [['a', '\n', 'b']])).dropLast.filter nonBlank ++
        [readerBuffer [['a', '\n', 'b']] []] :=
  ⟨by decide, (c7_final_partial_line_flush [['a', '\n', 'b']]).1 (by decide)⟩

/-- C8: after any sequence of chunks, the partial-line buffer contains no
newline, and it equals the trailing fragment of the data seen so far after
its last newline. -/
theorem c8_buffer_invariant (chunks : List (List Char)) :
    (readerBuffer chunks []).all (fun c => c != '\n') = true ∧
    readerBuffer chunks [] = trailingFragment (joinAll chunks) := by
  have hrb := readerBuffer_eq (List.not_mem_nil '\n') chunks
  rw [List.nil_append] at hrb
  refine ⟨?_, by rw [hrb, lastD_splitNl_eq_trailingFragment]⟩
  rw [hrb, List.all_eq_true]
  intro c hc
  have hnn := no_newline_lastD_splitNl (joinAll chunks)
  simp only [bne_iff_ne, ne_eq]
  intro hceq
  exact hnn (hceq ▸ hc)

/-- C3: decoding the value produced by encoding a message (serialization
with null fields omitted) recovers the message in full — `model_validate`
inverts `model_dump` for every message value. -/
theorem c3_codec_roundtrip (m : JSONRPCMessage) :
    model_validate (Json.obj (model_dump m)) = some m := by
  obtain ⟨j, i, me, pa, re, er⟩ := m
  cases i <;> cases me <;> cases pa <;> cases re <;> cases er <;> rfl

/-- C5: opening raises a `ValueError` exactly when the command is empty or
`args` is not a list or tuple; otherwise validation passes and the spawn is
attempted. -/
theorem c5_parameter_validation (dflt : List (String × String))
    (server : StdioServerParameters) :
    ((stdio_client dflt server).raisedValueError.isSome = true ↔
      (server.command = "" ∨ server.args.isListOrTuple = false)) ∧
    ((stdio_client dflt server).raisedValueError = Option.none →
      (stdio_client dflt server).effects.any OpenEffect.isSpawn = true) := by
  by_cases hc : server.command = "" <;>
    by_cases ha : server.args.isListOrTuple <;>
      simp [stdio_client, hc, ha, OpenEffect.isSpawn]

theorem c5_witness :
    (stdio_client []
      ⟨"", PyArgs.list [], Option.none⟩).raisedValueError.isSome = true ∧
    (stdio_client []
      ⟨"echo", PyArgs.list ["hi"], Option.none⟩).effects.any
        OpenEffect.isSpawn = true :=
  ⟨(c5_parameter_validation [] ⟨"", PyArgs.list [], Option.none⟩).1.mpr
      (Or.inl rfl),
    (c5_parameter_validation [] ⟨"echo", PyArgs.list ["hi"], Option.none⟩).2
      (by decide)⟩

/-- C10: on invalid parameters `stdio_client` raises before acquiring any
resource — no channels are created and no process is spawned. -/
theorem c10_validation_failure_atomicity (dflt : List (String × String))
    (server : StdioServerParameters)
    (h : server.command = "" ∨ server.args.isListOrTuple = false) :
    (stdio_client dflt server).effects = [] ∧
    (stdio_client dflt server).raisedValueError.isSome = true := by
  rcases h with h | h
  · simp [stdio_client, h]
  · by_cases hc : server.command = "" <;> simp [stdio_client, hc, h]

theorem c10_witness :
    (stdio_client [("PATH", "/bin")]
      ⟨"echo", PyArgs.pyStr "oops", Option.none⟩).effects = [] ∧
    (stdio_client [("PATH", "/bin")]
      ⟨"echo", PyArgs.pyStr "oops", Option.none⟩).raisedValueError.isSome =
        true :=
  c10_validation_failure_atomicity [("PATH", "/bin")]
    ⟨"echo", PyArgs.pyStr "oops", Option.none⟩ (Or.inr rfl)

/-- C9: with valid parameters, the spawn receives exactly the default
environment overlaid with `params.env`: a key present in `params.env` takes
its value from there, a key absent from it keeps the default value. -/
theorem c9_environment_overlay (dflt : List (String × String))
    (server : StdioServerParameters) (k : String)
    (hc : server.command ≠ "") (ha : server.args.isListOrTuple = true)
    (hnd : ((server.env.getD []).map Prod.fst).Nodup) :
    (stdio_client dflt server).effects =
      [OpenEffect.createChannels,
        OpenEffect.spawnProcess (server.command :: server.args.elems)
          (spawnEnv dflt server)] ∧
    List.lookup k (spawnEnv dflt server) =
      ((List.lookup k (server.env.getD [])).orElse
        (fun _ => List.lookup k dflt)) := by
  refine ⟨by simp [stdio_client, hc, ha], ?_⟩
  exact lookup_dictMerge dflt _ k hnd

theorem c9_witness :
    List.lookup "PATH"
      (spawnEnv [("PATH", "/bin"), ("HOME", "/root")]
        ⟨"echo", PyArgs.list [], some [("PATH", "/opt")]⟩) = some "/opt" ∧
    List.lookup "HOME"
      (spawnEnv [("PATH", "/bin"), ("HOME", "/root")]
        ⟨"echo", PyArgs.list [], some [("PATH", "/opt")]⟩) = some "/root" := by
  have h1 := (c9_environment_overlay [("PATH", "/bin"), ("HOME", "/root")]
    ⟨"echo", PyArgs.list [], some [("PATH", "/opt")]⟩ "PATH"
    (by decide) (by decide) (by simp)).2
  have h2 := (c9_environment_overlay [("PATH", "/bin"), ("HOME", "/root")]
    ⟨"echo", PyArgs.list [], some [("PATH", "/opt")]⟩ "HOME"
    (by decide) (by decide) (by simp)).2
  rw [h1, h2]
  exact ⟨rfl, rfl⟩

/-- C6: `terminate_process` never propagates an error to its caller; it is a
no-op when the process has already exited; otherwise it first sends the
graceful termination request, and it escalates to a forceful kill exactly
when the process (absent a terminate-time error) fails to exit within the
5-unit bound. -/
theorem c6_terminate_behaviour (p : ProcState) :
    (terminate_process p).raisedToCaller = false ∧
    (p.returncode.isSome = true → (terminate_process p).actions = []) ∧
    (p.returncode = Option.none →
      (terminate_process p).actions.head? = some TermAction.terminate) ∧
    (TermAction.kill ∈ (terminate_process p).actions ↔
      (p.returncode = Option.none ∧ p.terminateRaises = false ∧
        (p.exitTimeAfterTerminate.all (fun t => decide (5 < t))) = true)) := by
  obtain ⟨rc, et, tr, kr⟩ := p
  cases rc
  · cases tr
    · cases et
      · simp [terminate_process, Option.all]
      · rename_i t
        by_cases ht : t ≤ 5
        all_goals simp [terminate_process, ht, Option.all]
        all_goals omega
    · simp [terminate_process]
  · simp [terminate_process]

theorem c6_witness :
    (terminate_process ⟨Option.none, some 10, false, true⟩).raisedToCaller =
      false ∧
    (terminate_process ⟨some 0, Option.none, false, false⟩).actions = [] ∧
    (terminate_process ⟨Option.none, some 10, false, true⟩).actions.head? =
      some TermAction.terminate ∧
    TermAction.kill ∈
      (terminate_process ⟨Option.none, some 10, false, true⟩).actions :=
  ⟨(c6_terminate_behaviour ⟨Option.none, some 10, false, true⟩).1,
    (c6_terminate_behaviour ⟨some 0, Option.none, false, false⟩).2.1 rfl,
    (c6_terminate_behaviour ⟨Option.none, some 10, false, true⟩).2.2.1 rfl,
    (c6_terminate_behaviour ⟨Option.none, some 10, false, true⟩).2.2.2.mpr
      ⟨rfl, rfl, by decide⟩⟩
